import Mathlib

/-!
# Verification of the dynterm flight-dynamics simulator

Shallow embedding of the dynterm sources (`vec.rs`, `interpolate.rs`,
`util.rs`, `aero.rs`, `rk4.rs`, `main.rs`) and proofs about the claims of
its specification.

Modelling conventions:
* IEEE-754 `f64` values are modelled by real numbers (`ℝ`); for the
  coefficient-table component, whose logic is purely order/field
  arithmetic, the embedding is generic over a `LinearOrderedField` so that
  concrete computations can be carried out over `ℚ` by `decide`.
* A Rust panic (index out of bounds, integer underflow) is modelled by
  `Option.none`.
-/

/-! ## Coefficient table (`interpolate.rs`)

`Linear` wraps an ordered list of `(x, y)` samples.  `Linear::new` stores
the slice without any validation.  `interpolate` binary-searches the
samples and linearly blends the two bracketing ones.
-/

/-- `Linear` from `interpolate.rs`: a reference to a slice of `(f64, f64)`
sample pairs. -/
structure Linear (K : Type) where
  data : List (K × K)

/-- `Linear::new` from `interpolate.rs`: stores the slice as-is (no
validation of sample count or ordering is performed by the source). -/
def Linear.new {K : Type} (data : List (K × K)) : Linear K :=
  ⟨data⟩

/-- The result of Rust `slice::binary_search_by` on the sample slice,
comparing each probe's x-value with `x` (its documented contract:
`Sum.inl i` when `data[i].0 = x`, otherwise `Sum.inr` of the insertion
index, which for a list sorted by x-value is the number of samples whose
x-value is below `x`). -/
def binarySearchByX {K : Type} [LinearOrderedField K] (data : List (K × K)) (x : K) :
    Sum Nat Nat :=
  let c := data.countP (fun p => decide (p.1 < x))
  if data.any (fun p => decide (p.1 = x)) then Sum.inl c else Sum.inr c

/-- `Linear::interpolate` from `interpolate.rs`.  The source computes
`i = binary_search(..).unwrap_or_else(|i| i - 1)`, `j = i + 1`, then reads
`data[i]` and `data[j]` and blends.  `i - 1` underflows `usize` when the
insertion index is `0`, and `data[i]`/`data[j]` panic when the index is
past the end; both panics are modelled by `none`. -/
def Linear.interpolate {K : Type} [LinearOrderedField K] (l : Linear K) (x : K) :
    Option K :=
  let data := l.data
  let idx : Option Nat :=
    match binarySearchByX data x with
    | Sum.inl i => some i
    | Sum.inr i => if i = 0 then none else some (i - 1)
  match idx with
  | none => none
  | some i =>
    match data.get? i, data.get? (i + 1) with
    | some di, some dj => some (di.2 + (x - di.1) / (dj.1 - di.1) * (dj.2 - di.2))
    | _, _ => none

/-- The x-values of the samples are strictly increasing. -/
def StrictIncX {K : Type} [LinearOrderedField K] (data : List (K × K)) : Prop :=
  List.Pairwise (fun a b : K × K => a.1 < b.1) data



/-! ## Geometry primitives (`vec.rs`)

`Vector` is a plain `(x, y)` pair of `f64`; `Angle` stores radians,
normalized by `clamp` (Rust `%` on `f64` is the truncated-division
remainder) into `[0, 2π)` on construction and after `+`/`-`. -/

noncomputable section

/-- `Vector` from `vec.rs`. -/
@[ext]
structure Vector where
  x : ℝ
  y : ℝ

/-- Truncated division on reals (`f64` casts of the `trunc` used by the
Rust `%` operator: rounding toward zero). -/
def truncToward (r : ℝ) : ℤ :=
  if 0 ≤ r then ⌊r⌋ else ⌈r⌉

/-- The Rust `%` operator on `f64`: remainder of truncated division, with
the sign of the dividend. -/
def fmod (a b : ℝ) : ℝ :=
  a - b * (truncToward (a / b) : ℝ)

/-- `Angle` from `vec.rs`: a scalar phase in radians. -/
@[ext]
structure Angle where
  radians : ℝ

namespace Angle

/-- `Angle::clamp` from `vec.rs`: `radians %= 2π; if radians < 0 { radians += 2π }`. -/
def clamp (radians : ℝ) : ℝ :=
  let m := fmod radians (2 * Real.pi)
  if m < 0 then m + 2 * Real.pi else m

/-- `Angle::from_radians`. -/
def from_radians (radians : ℝ) : Angle :=
  ⟨clamp radians⟩

/-- `Angle::from_degrees` (`f64::to_radians` multiplies by `π/180`). -/
def from_degrees (degrees : ℝ) : Angle :=
  ⟨clamp (degrees * (Real.pi / 180))⟩

/-- `Angle::rad`. -/
def rad (a : Angle) : ℝ :=
  a.radians

/-- `Angle::deg` (`f64::to_degrees` multiplies by `180/π`; the fold of an
exact `360.0` to `0.0` guards the floating-point rounding edge). -/
def deg (a : Angle) : ℝ :=
  let d := a.radians * (180 / Real.pi)
  if d = 360 then 0 else d

/-- `Angle::nice_deg`: degrees mapped into `(-180, 180]`. -/
def nice_deg (a : Angle) : ℝ :=
  let d := a.radians * (180 / Real.pi)
  if d > 180 then d - 360 else d

/-- `impl Add for Angle`. -/
instance : Add Angle :=
  ⟨fun a b => from_radians (a.radians + b.radians)⟩

/-- `impl Sub for Angle`. -/
instance : Sub Angle :=
  ⟨fun a b => from_radians (a.radians - b.radians)⟩

end Angle

namespace Vector

/-- `Vector::new`. -/
def new (x y : ℝ) : Vector :=
  ⟨x, y⟩

/-- `Vector::from_radians`. -/
def from_radians (m r : ℝ) : Vector :=
  ⟨m * Real.cos r, m * Real.sin r⟩

/-- `Vector::from_degrees`. -/
def from_degrees (m r : ℝ) : Vector :=
  ⟨m * Real.cos (r * (Real.pi / 180)), m * Real.sin (r * (Real.pi / 180))⟩

/-- `Vector::dot`. -/
def dot (v w : Vector) : ℝ :=
  v.x * w.x + v.y * w.y

/-- `Vector::cross` (scalar z-component). -/
def cross (v w : Vector) : ℝ :=
  v.x * w.y - v.y * w.x

/-- `Vector::magnitude`. -/
def magnitude (v : Vector) : ℝ :=
  Real.sqrt (v.x ^ 2 + v.y ^ 2)

/-- `Vector::orientation`: `atan2(y, x)` fed to `Angle::from_radians`.
`f64::atan2` on real (non-NaN, non-signed-zero) arguments agrees with the
complex argument of `x + y·i`, including `atan2(0, 0) = 0`. -/
def orientation (v : Vector) : Angle :=
  Angle.from_radians (Complex.arg ⟨v.x, v.y⟩)

/-- `Vector::unit`. -/
def unit (v : Vector) : Vector :=
  from_radians 1 v.orientation.rad

/-- `impl Add for Vector`. -/
instance : Add Vector :=
  ⟨fun v w => ⟨v.x + w.x, v.y + w.y⟩⟩

/-- `impl Sub for Vector`. -/
instance : Sub Vector :=
  ⟨fun v w => ⟨v.x - w.x, v.y - w.y⟩⟩

/-- `impl Mul<Vector> for f64` (scalar multiplication). -/
instance : SMul ℝ Vector :=
  ⟨fun c v => ⟨v.x * c, v.y * c⟩⟩

/-- `impl Div<f64> for Vector` (scalar division). -/
instance : HDiv Vector ℝ Vector :=
  ⟨fun v c => ⟨v.x / c, v.y / c⟩⟩

end Vector

/-- `Angle::from_vector`. -/
def Angle.from_vector (v : Vector) : Angle :=
  v.orientation

/-- `Angle::unit`. -/
def Angle.unit (a : Angle) : Vector :=
  Vector.from_radians 1 a.radians


/-! ## Atmosphere model (`util.rs`) -/

/-- `isa_density` from `util.rs`: the International Standard Atmosphere
density at an altitude. -/
def isa_density (altitude : ℝ) : ℝ :=
  let RHO0 : ℝ := 1.225
  let T0 : ℝ := 288.15
  let L : ℝ := 0.0065
  let G : ℝ := 9.80665
  let R : ℝ := 287.058
  let temp := if altitude ≤ 11000 then T0 - L * altitude else 216.65
  let press :=
    if altitude ≤ 11000 then 101325 * (temp / T0) ^ (G / (L * R))
    else 22632 * Real.exp (-G * (altitude - 11000) / (R * 216.65))
  RHO0 * (press / 101325)

/-- `atmo_density` from `util.rs`: ISA density normalized by the lazily
computed sea-level value `SEA_LEVEL_DENSITY = isa_density(0)`. -/
def atmo_density (altitude : ℝ) : ℝ :=
  isa_density altitude / isa_density 0

/-! ## Kinematic state -/

/-- Modelled from the spec: the `Kinematics` type that `aero.rs` imports
from the `vec` module is missing from the provided sources.  Per the
spec's data model it is a composite of a linear `Vector` component and a
scalar angular component that "supports the same algebra as Vector (add,
scale) so it can be advanced by the same generic integrator"; the
constructors and accessors below are exactly the ones its callers in
`aero.rs` and `main.rs` use. -/
@[ext]
structure Kinematics where
  vec : Vector
  ang : ℝ

namespace Kinematics

/-- `Kinematics::new`: linear part plus an `Angle` angular part. -/
def new (vec : Vector) (angle : Angle) : Kinematics :=
  ⟨vec, angle.radians⟩

/-- `Kinematics::new_raw`: linear part plus a raw scalar angular part. -/
def new_raw (vec : Vector) (ang : ℝ) : Kinematics :=
  ⟨vec, ang⟩

/-- Horizontal component of the linear part. -/
def x (k : Kinematics) : ℝ :=
  k.vec.x

/-- Vertical component of the linear part. -/
def y (k : Kinematics) : ℝ :=
  k.vec.y

/-- The angular component as an `Angle`. -/
def angle (k : Kinematics) : Angle :=
  Angle.from_radians k.ang

/-- Orientation of the linear part (free-stream direction when the state
is a velocity). -/
def direction (k : Kinematics) : Angle :=
  k.vec.orientation

/-- Magnitude of the linear part. -/
def magnitude (k : Kinematics) : ℝ :=
  k.vec.magnitude

instance : Add Kinematics :=
  ⟨fun a b => ⟨a.vec + b.vec, a.ang + b.ang⟩⟩

instance : Sub Kinematics :=
  ⟨fun a b => ⟨a.vec - b.vec, a.ang - b.ang⟩⟩

instance : SMul ℝ Kinematics :=
  ⟨fun c k => ⟨c • k.vec, k.ang * c⟩⟩

instance : HDiv Kinematics ℝ Kinematics :=
  ⟨fun k c => ⟨k.vec / c, k.ang / c⟩⟩

end Kinematics

/-! ## RK4 integrator (`rk4.rs`) -/

/-- `rk4` from `rk4.rs`, at the state type `Vehicle::apply_dynamics` uses
it with (the source is written for a state supporting `+`, scalar `*` and
`/`). -/
def rk4 (f : ℝ → Kinematics → Kinematics) (x : Kinematics) (t h : ℝ) : Kinematics :=
  let k1 := h • f t x
  let k2 := h • f (t + 0.5 * h) (x + (0.5 : ℝ) • k1)
  let k3 := h • f (t + 0.5 * h) (x + (0.5 : ℝ) • k2)
  let k4 := h • f (t + h) (x + k3)
  x + (k1 + (2 : ℝ) • k2 + (2 : ℝ) • k3 + k4) / (6 : ℝ)

/-! ## Aerofoil and Vehicle (`aero.rs`) -/

/-- `Aerofoil` from `aero.rs`.  The three `&Linear` coefficient-table
references are modelled by the total coefficient functions
`x ↦ interpolate(x)` through which they are queried; the partiality of
`Linear::interpolate` itself is analyzed separately on the `Linear`
embedding above. -/
@[ext]
structure Aerofoil where
  area : ℝ
  chord : ℝ
  pitch : Angle
  cl : ℝ → ℝ
  cd : ℝ → ℝ
  cm : ℝ → ℝ

namespace Aerofoil

/-- `Aerofoil::new`. -/
def new (area chord : ℝ) (pitch : Angle) (cl cd cm : ℝ → ℝ) : Aerofoil :=
  ⟨area, chord, pitch, cl, cd, cm⟩

/-- `Aerofoil::set_pitch`. -/
def set_pitch (a : Aerofoil) (pitch : Angle) : Aerofoil :=
  { a with pitch := pitch }

/-- `Aerofoil::aoa`: orientation of the body plus the aerofoil pitch,
minus the free-stream direction. -/
def aoa (a : Aerofoil) (k dk : Kinematics) : Angle :=
  (k.angle + a.pitch) - dk.direction

/-- `Aerofoil::dyn_pressure`: `0.5 * atmo_density(k.y()) * dk.magnitude()^2`. -/
def dyn_pressure (_a : Aerofoil) (k dk : Kinematics) : ℝ :=
  0.5 * atmo_density k.y * dk.magnitude ^ 2

/-- `Aerofoil::lift_force`: magnitude `area * Cl(aoa.deg()) * q`, direction
`dk.direction().rad() + PI/2`. -/
def lift_force (a : Aerofoil) (k dk : Kinematics) : Vector :=
  let lift_coeff := a.cl ((a.aoa k dk).deg)
  Vector.from_radians (a.area * lift_coeff * a.dyn_pressure k dk)
    (dk.direction.rad + Real.pi / 2)

/-- `Aerofoil::drag_force`: magnitude `area * Cd(aoa.deg()) * q`, direction
`dk.direction().rad() + PI`. -/
def drag_force (a : Aerofoil) (k dk : Kinematics) : Vector :=
  let drag_coeff := a.cd ((a.aoa k dk).deg)
  Vector.from_radians (a.area * drag_coeff * a.dyn_pressure k dk)
    (dk.direction.rad + Real.pi)

/-- `Aerofoil::pitching_moment`: `area * Cm(aoa.deg()) * q * chord`. -/
def pitching_moment (a : Aerofoil) (k dk : Kinematics) : ℝ :=
  let pitch_coeff := a.cm ((a.aoa k dk).deg)
  a.area * pitch_coeff * a.dyn_pressure k dk * a.chord

end Aerofoil

/-- `Vehicle` from `aero.rs`. -/
@[ext]
structure Vehicle where
  mass : ℝ
  length : ℝ
  moment : ℝ
  position : Kinematics
  motion : Kinematics
  wing : Aerofoil
  elev : Aerofoil

namespace Vehicle

/-- `Vehicle::new`: the `moment` field is the moment of inertia of a
uniform rod about its center, `mass * length^2 / 12`. -/
def new (mass length : ℝ) (position motion : Kinematics) (wing elev : Aerofoil) : Vehicle :=
  ⟨mass, length, mass * length ^ 2 / 12, position, motion, wing, elev⟩

/-- `Vehicle::aoa`. -/
def aoa (v : Vehicle) : Angle :=
  v.position.angle - v.motion.direction

/-- `Vehicle::calculate_dynamics`: sums the aerodynamic forces, thrust and
weight, pairs them with the summed moments, and divides the whole
`Kinematics` by `mass`.  `_aero_tangent` is bound but unused in the
source: the magnitude passed to the thrust vector is the literal
`0_000.0`, the `aero_tangent.magnitude()` argument being commented out. -/
def calculate_dynamics (v : Vehicle) (k dk : Kinematics) : Kinematics :=
  let w := v.wing
  let e := v.elev
  let r_e := Vector.from_radians (v.length / 2) (k.angle.rad + Real.pi)
  let free_stream_unit := dk.direction.unit
  let W := v.mass • Vector.new 0 (-9.81)
  let F_w := w.lift_force k dk + w.drag_force k dk
  let F_e := e.lift_force k dk + e.drag_force k dk
  let _aero_tangent := (free_stream_unit.cross (F_w + F_e)) • free_stream_unit
  let T := Vector.from_radians 0 (k.angle.rad + Real.pi)
  Kinematics.new_raw (F_w + F_e + T + W)
    (w.pitching_moment k dk + e.pitching_moment k dk + r_e.cross F_e) / v.mass

/-- The body of the `for` loop in `Vehicle::apply_dynamics`: the motion is
advanced by RK4 on the dynamics, then the position by RK4 on the updated
motion.  Both derivative closures in the source multiply by the local step
time `t` (started at `0.0`). -/
def applyStep (v : Vehicle) (h : ℝ) : Vehicle :=
  let motion1 := rk4 (fun t dk => t • v.calculate_dynamics v.position dk) v.motion 0 h
  let position1 := rk4 (fun t _ => t • motion1) v.position 0 h
  { v with motion := motion1, position := position1 }

/-- `Vehicle::apply_dynamics`: `N` repetitions of the loop body with step
`h = 1.0 / N`. -/
def apply_dynamics (v : Vehicle) (N : ℕ) : Vehicle :=
  (fun w => applyStep w (1 / (N : ℝ)))^[N] v

end Vehicle

/-! ## Simulation driver control step (`main.rs`) -/

/-- The per-iteration elevator pitch update in the `main.rs` loop
(`// Pull up?`): the pitch is computed from the current altitude alone. -/
def controlPitch (v : Vehicle) : Angle :=
  Angle.from_degrees (if v.position.y < 7300 then -3 else 0)

/-- One application of the `main.rs` control update:
`vehicle.elev.set_pitch(Angle::from_degrees(...))`. -/
def applyControl (v : Vehicle) : Vehicle :=
  { v with elev := v.elev.set_pitch (controlPitch v) }

/-- The net aerodynamic force on the vehicle in its current state (wing
plus elevator, lift plus drag), as referred to by the specified control
law. -/
def netAeroForce (v : Vehicle) : Vector :=
  (v.wing.lift_force v.position v.motion + v.wing.drag_force v.position v.motion) +
    (v.elev.lift_force v.position v.motion + v.elev.drag_force v.position v.motion)

/-- The control error named by the claimed control law: the signed angular
error (signed-degree form) between the vehicle's current orientation and
the orientation of the reversed net aerodynamic force. -/
def signedTrimError (v : Vehicle) : ℝ :=
  (v.position.angle -
    (Vector.new (-(netAeroForce v).x) (-(netAeroForce v).y)).orientation).nice_deg

/-! ## Concrete fixtures used by the claims -/

/-- An aerofoil with zero area, zero chord and zero coefficients. -/
def af0 : Aerofoil :=
  ⟨0, 0, ⟨0⟩, fun _ => 0, fun _ => 0, fun _ => 0⟩

/-- A ballistic vehicle family: unit mass and length, zero-area aerofoils,
at altitude `py` with vertical velocity `vy`. -/
def vB (py vy : ℝ) : Vehicle :=
  Vehicle.new 1 1 (Kinematics.new_raw (Vector.new 0 py) 0)
    (Kinematics.new_raw (Vector.new 0 vy) 0) af0 af0

/-- The ballistic drop of claim C1: released from rest at 100 m. -/
def vBall : Vehicle :=
  vB 100 0

/-- Wing for claim C3: area 2, chord 1, zero lift/drag coefficients,
constant unit pitching-moment coefficient. -/
def wingC3 : Aerofoil :=
  ⟨2, 1, ⟨0⟩, fun _ => 0, fun _ => 0, fun _ => 1⟩

/-- Elevator for claim C3: zero area and chord. -/
def elevC3 : Aerofoil :=
  ⟨0, 0, ⟨0⟩, fun _ => 0, fun _ => 0, fun _ => 1⟩

/-- The vehicle of claim C3: mass 1 and length 2, so the stored moment of
inertia is 1/3; level pose at sea level, unit speed along x. -/
def vC3 : Vehicle :=
  Vehicle.new 1 2 (Kinematics.new_raw (Vector.new 0 0) 0)
    (Kinematics.new_raw (Vector.new 1 0) 0) wingC3 elevC3

/-- Aerofoil with unit area, chord and coefficients (C6 witness). -/
def afW : Aerofoil :=
  ⟨1, 1, ⟨0⟩, fun _ => 1, fun _ => 1, fun _ => 1⟩

/-- Pose fixture: at the origin, level. -/
def kW : Kinematics :=
  Kinematics.new_raw (Vector.new 0 0) 0

/-- Rate fixture: unit velocity along x. -/
def dkW : Kinematics :=
  Kinematics.new_raw (Vector.new 1 0) 0

/-- Rate fixture: exactly zero velocity. -/
def dk0 : Kinematics :=
  Kinematics.new_raw (Vector.new 0 0) 0

/-- Vehicle for the C9 counterexample: 8000 m altitude, zero velocity,
elevator pitch `π/2` before the control update. -/
def sC9 : Vehicle :=
  ⟨1, 1, 1 / 12, Kinematics.new_raw (Vector.new 0 8000) 0,
    Kinematics.new_raw (Vector.new 0 0) 0, af0,
    ⟨0, 0, ⟨Real.pi / 2⟩, fun _ => 0, fun _ => 0, fun _ => 0⟩⟩

/-- Vehicle for the C9 amended-claim witness: 5000 m altitude. -/
def sLow : Vehicle :=
  ⟨1, 1, 1 / 12, Kinematics.new_raw (Vector.new 0 5000) 0,
    Kinematics.new_raw (Vector.new 0 0) 0, af0, af0⟩


/-! # Theorems -/

section InterpolateLemmas

/-- Counting lemma: if a Boolean predicate holds exactly on the first `k`
positions of a list, then `countP` returns `k`. -/
theorem countP_eq_of_iff_lt {σ : Type} (p : σ → Bool) :
    ∀ (l : List σ) (k : Nat), k ≤ l.length →
      (∀ i : Fin l.length, p (l.get i) = true ↔ (i : Nat) < k) →
      l.countP p = k := by
  intro l
  induction l with
  | nil =>
    intro k hk _
    simp only [List.length_nil, Nat.le_zero] at hk
    simp [hk]
  | cons a tl ih =>
    intro k hk hiff
    cases k with
    | zero =>
      have ha : p a = false := by
        have := hiff ⟨0, Nat.succ_pos _⟩
        simpa using this
      have htl : tl.countP p = 0 := by
        refine ih 0 (Nat.zero_le _) ?_
        intro i
        have := hiff ⟨i.1 + 1, Nat.succ_lt_succ i.2⟩
        simpa using this
      simp [List.countP_cons, ha, htl]
    | succ k' =>
      have ha : p a = true := by
        have := hiff ⟨0, Nat.succ_pos _⟩
        simpa using this
      have htl : tl.countP p = k' := by
        refine ih k' (Nat.le_of_succ_le_succ (by simpa using hk)) ?_
        intro i
        have := hiff ⟨i.1 + 1, Nat.succ_lt_succ i.2⟩
        simpa [Nat.succ_lt_succ_iff] using this
      simp [List.countP_cons, ha, htl]

/-- Membership via indices for the `any` combinator. -/
theorem any_eq_true_iff_exists_fin {σ : Type} (p : σ → Bool) (l : List σ) :
    l.any p = true ↔ ∃ i : Fin l.length, p (l.get i) = true := by
  rw [List.any_eq_true]
  constructor
  · rintro ⟨a, ha, hpa⟩
    rcases List.mem_iff_get.mp ha with ⟨i, rfl⟩
    exact ⟨i, hpa⟩
  · rintro ⟨i, hpi⟩
    exact ⟨l.get i, List.get_mem l i.1 i.2, hpi⟩

theorem strictIncX_get {K : Type} [LinearOrderedField K]
    {data : List (K × K)} (h : StrictIncX data)
    (i j : Fin data.length) (hij : (i : Nat) < (j : Nat)) :
    (data.get i).1 < (data.get j).1 :=
  List.pairwise_iff_get.mp h i j hij

section ResolveSearch

variable {K : Type} [LinearOrderedField K]

/-- On a strictly increasing table, querying the x-value of a sample other
than the last returns that sample's y exactly. -/
theorem interpolate_exact_interior {data : List (K × K)} (h : StrictIncX data)
    (i : Fin data.length) (hi1 : (i : Nat) + 1 < data.length) :
    (Linear.new data).interpolate (data.get i).1 = some (data.get i).2 := by
  set x := (data.get i).1 with hx
  have hany : data.any (fun p => decide (p.1 = x)) = true := by
    rw [any_eq_true_iff_exists_fin]
    exact ⟨i, by simp [hx]⟩
  have hcount : data.countP (fun p => decide (p.1 < x)) = (i : Nat) := by
    refine countP_eq_of_iff_lt _ data i.1 (Nat.le_of_lt i.2) ?_
    intro j
    simp only [decide_eq_true_eq]
    constructor
    · intro hlt
      by_contra hge
      push_neg at hge
      rcases Nat.lt_or_ge (i : Nat) (j : Nat) with hij | hij
      · exact absurd (strictIncX_get h i j hij) (lt_asymm hlt)
      · have : (j : Nat) = (i : Nat) := Nat.le_antisymm hij hge
        rw [show j = i from Fin.ext this] at hlt
        exact lt_irrefl _ hlt
    · intro hj
      exact strictIncX_get h j i hj
  have hsearch : binarySearchByX data x = Sum.inl (i : Nat) := by
    simp only [binarySearchByX, hany, if_true, hcount]
  have hget1 : data.get? (i : Nat) = some (data.get i) := List.get?_eq_get i.2
  have hget2 : data.get? ((i : Nat) + 1) = some (data.get ⟨(i : Nat) + 1, hi1⟩) :=
    List.get?_eq_get hi1
  simp only [Linear.interpolate, Linear.new, hsearch, hget1, hget2]
  rw [hx, sub_self, zero_div, zero_mul, add_zero]

/-- On a strictly increasing table, a query strictly between two adjacent
samples returns the standard linear blend of those two samples. -/
theorem interpolate_blend_interior {data : List (K × K)} (h : StrictIncX data)
    (i : Fin data.length) (hi1 : (i : Nat) + 1 < data.length) (x : K)
    (hlo : (data.get i).1 < x) (hhi : x < (data.get ⟨(i : Nat) + 1, hi1⟩).1) :
    (Linear.new data).interpolate x =
      some ((data.get i).2 +
        (x - (data.get i).1) /
          ((data.get ⟨(i : Nat) + 1, hi1⟩).1 - (data.get i).1) *
          ((data.get ⟨(i : Nat) + 1, hi1⟩).2 - (data.get i).2)) := by
  have hnotmem : ∀ j : Fin data.length, (data.get j).1 ≠ x := by
    intro j
    rcases Nat.lt_or_ge (j : Nat) ((i : Nat) + 1) with hj | hj
    · have hle : (data.get j).1 ≤ (data.get i).1 := by
        rcases Nat.lt_or_ge (j : Nat) (i : Nat) with hji | hji
        · exact le_of_lt (strictIncX_get h j i hji)
        · have : (j : Nat) = (i : Nat) := Nat.le_antisymm (Nat.le_of_lt_succ hj) hji
          rw [show j = i from Fin.ext this]
      exact ne_of_lt (lt_of_le_of_lt hle hlo)
    · have hge : (data.get ⟨(i : Nat) + 1, hi1⟩).1 ≤ (data.get j).1 := by
        rcases Nat.lt_or_ge ((i : Nat) + 1) (j : Nat) with hj' | hj'
        · exact le_of_lt (strictIncX_get h ⟨(i : Nat) + 1, hi1⟩ j hj')
        · have : (j : Nat) = (i : Nat) + 1 := Nat.le_antisymm hj' hj
          rw [show j = (⟨(i : Nat) + 1, hi1⟩ : Fin data.length) from Fin.ext this]
      exact ne_of_gt (lt_of_lt_of_le hhi hge)
  have hany : data.any (fun p => decide (p.1 = x)) = false := by
    rw [← Bool.not_eq_true, any_eq_true_iff_exists_fin]
    rintro ⟨j, hj⟩
    exact hnotmem j (by simpa using hj)
  have hcount : data.countP (fun p => decide (p.1 < x)) = (i : Nat) + 1 := by
    refine countP_eq_of_iff_lt _ data ((i : Nat) + 1) hi1.le ?_
    intro j
    simp only [decide_eq_true_eq]
    constructor
    · intro hlt
      by_contra hge
      push_neg at hge
      have : (data.get ⟨(i : Nat) + 1, hi1⟩).1 ≤ (data.get j).1 := by
        rcases Nat.lt_or_ge ((i : Nat) + 1) (j : Nat) with hj' | hj'
        · exact le_of_lt (strictIncX_get h ⟨(i : Nat) + 1, hi1⟩ j hj')
        · have : (j : Nat) = (i : Nat) + 1 := Nat.le_antisymm hj' hge
          rw [show j = (⟨(i : Nat) + 1, hi1⟩ : Fin data.length) from Fin.ext this]
      exact absurd (lt_trans hhi (lt_of_le_of_lt this hlt)) (lt_irrefl x)
    · intro hj
      have hle : (data.get j).1 ≤ (data.get i).1 := by
        rcases Nat.lt_or_ge (j : Nat) (i : Nat) with hji | hji
        · exact le_of_lt (strictIncX_get h j i hji)
        · have : (j : Nat) = (i : Nat) := Nat.le_antisymm (Nat.le_of_lt_succ hj) hji
          rw [show j = i from Fin.ext this]
      exact lt_of_le_of_lt hle hlo
  have hsearch : binarySearchByX data x = Sum.inr ((i : Nat) + 1) := by
    simp only [binarySearchByX, hany, if_false, hcount]
    simp
  have hget1 : data.get? (i : Nat) = some (data.get i) := List.get?_eq_get i.2
  have hget2 : data.get? ((i : Nat) + 1) = some (data.get ⟨(i : Nat) + 1, hi1⟩) :=
    List.get?_eq_get hi1
  simp only [Linear.interpolate, Linear.new, hsearch, Nat.succ_ne_zero, if_false,
    Nat.add_sub_cancel, hget1, hget2]

/-- A query strictly below the first sample makes `i - 1` underflow the
`usize` index: the lookup panics instead of extrapolating. -/
theorem interpolate_below_first {data : List (K × K)} (h : StrictIncX data)
    (hlen : 0 < data.length) (x : K) (hx : x < (data.get ⟨0, hlen⟩).1) :
    (Linear.new data).interpolate x = none := by
  have hfirst_le : ∀ j : Fin data.length, (data.get ⟨0, hlen⟩).1 ≤ (data.get j).1 := by
    intro j
    rcases Nat.eq_zero_or_pos (j : Nat) with hj | hj
    · rw [show j = (⟨0, hlen⟩ : Fin data.length) from Fin.ext hj]
    · exact le_of_lt (strictIncX_get h ⟨0, hlen⟩ j hj)
  have hany : data.any (fun p => decide (p.1 = x)) = false := by
    rw [← Bool.not_eq_true, any_eq_true_iff_exists_fin]
    rintro ⟨j, hj⟩
    have : (data.get j).1 = x := by simpa using hj
    exact absurd (lt_of_lt_of_le hx (hfirst_le j)) (by rw [this]; exact lt_irrefl x)
  have hcount : data.countP (fun p => decide (p.1 < x)) = 0 := by
    refine countP_eq_of_iff_lt _ data 0 (Nat.zero_le _) ?_
    intro j
    simp only [decide_eq_true_eq]
    constructor
    · intro hlt
      exact absurd (lt_of_lt_of_le hx (hfirst_le j)) (lt_asymm hlt)
    · intro hj
      exact absurd hj (Nat.not_lt_zero _)
  have hsearch : binarySearchByX data x = Sum.inr 0 := by
    simp only [binarySearchByX, hany, if_false, hcount]
    simp
  simp [Linear.interpolate, Linear.new, hsearch]

/-- A query at or past the last sample makes `j = i + 1` fall past the end
of the slice: the lookup panics instead of extrapolating. -/
theorem interpolate_at_or_after_last {data : List (K × K)} (h : StrictIncX data)
    (m : Nat) (hml : m + 1 = data.length) (x : K)
    (hx : (data.get ⟨m, by omega⟩).1 ≤ x) :
    (Linear.new data).interpolate x = none := by
  have hmlt : m < data.length := by omega
  have hlast_ge : ∀ j : Fin data.length, (data.get j).1 ≤ (data.get ⟨m, hmlt⟩).1 := by
    intro j
    rcases Nat.lt_or_ge (j : Nat) m with hj | hj
    · exact le_of_lt (strictIncX_get h j ⟨m, hmlt⟩ hj)
    · have hje : (j : Nat) = m := by
        have := j.2
        omega
      rw [show j = (⟨m, hmlt⟩ : Fin data.length) from Fin.ext hje]
  have hnone : data[m + 1]? = none := by
    rw [List.getElem?_eq_none_iff]
    omega
  rcases eq_or_lt_of_le hx with heq | hlt
  · -- the query hits the last sample exactly: binary search returns its index
    have hany : data.any (fun p => decide (p.1 = x)) = true := by
      rw [any_eq_true_iff_exists_fin]
      exact ⟨⟨m, hmlt⟩, by simpa using heq⟩
    have hcount : data.countP (fun p => decide (p.1 < x)) = m := by
      refine countP_eq_of_iff_lt _ data m (le_of_lt hmlt) ?_
      intro j
      simp only [decide_eq_true_eq]
      constructor
      · intro hltj
        by_contra hge
        push_neg at hge
        have hje : (j : Nat) = m := by
          have := j.2
          omega
        rw [show j = (⟨m, hmlt⟩ : Fin data.length) from Fin.ext hje, ← heq] at hltj
        exact lt_irrefl _ hltj
      · intro hj
        exact lt_of_lt_of_le (strictIncX_get h j ⟨m, hmlt⟩ hj) (le_of_eq heq)
    have hsearch : binarySearchByX data x = Sum.inl m := by
      simp only [binarySearchByX, hany, if_true, hcount]
    have hget1 : data[m]? = some data[m] := List.getElem?_eq_getElem hmlt
    simp [Linear.interpolate, Linear.new, hsearch, hget1, hnone]
  · -- the query is strictly past the last sample: the insertion index is the length
    have hany : data.any (fun p => decide (p.1 = x)) = false := by
      rw [← Bool.not_eq_true, any_eq_true_iff_exists_fin]
      rintro ⟨j, hj⟩
      have hje : (data.get j).1 = x := by simpa using hj
      exact absurd (lt_of_le_of_lt (hlast_ge j) hlt)
        (by rw [hje]; exact lt_irrefl x)
    have hcount : data.countP (fun p => decide (p.1 < x)) = data.length := by
      refine countP_eq_of_iff_lt _ data data.length (le_refl _) ?_
      intro j
      simp only [decide_eq_true_eq]
      exact ⟨fun _ => j.2, fun _ => lt_of_le_of_lt (hlast_ge j) hlt⟩
    have hsearch : binarySearchByX data x = Sum.inr data.length := by
      simp only [binarySearchByX, hany, if_false, hcount]
      simp
    have hlen0 : ¬ (data.length = 0) := by omega
    have hsub : data.length - 1 = m := by omega
    have hget1 : data[m]? = some data[m] := List.getElem?_eq_getElem hmlt
    simp [Linear.interpolate, Linear.new, hsearch, hlen0, hsub, hget1, hnone]

end ResolveSearch

end InterpolateLemmas

theorem Angle.add_def (a b : Angle) : a + b = Angle.from_radians (a.radians + b.radians) :=
  rfl

theorem Angle.sub_def (a b : Angle) : a - b = Angle.from_radians (a.radians - b.radians) :=
  rfl

@[simp] theorem Vector.add_x (v w : Vector) : (v + w).x = v.x + w.x := rfl
@[simp] theorem Vector.add_y (v w : Vector) : (v + w).y = v.y + w.y := rfl
@[simp] theorem Vector.sub_x (v w : Vector) : (v - w).x = v.x - w.x := rfl
@[simp] theorem Vector.sub_y (v w : Vector) : (v - w).y = v.y - w.y := rfl
@[simp] theorem Vector.smul_x (c : ℝ) (v : Vector) : (c • v).x = v.x * c := rfl
@[simp] theorem Vector.smul_y (c : ℝ) (v : Vector) : (c • v).y = v.y * c := rfl
@[simp] theorem Vector.div_x (v : Vector) (c : ℝ) : (v / c).x = v.x / c := rfl
@[simp] theorem Vector.div_y (v : Vector) (c : ℝ) : (v / c).y = v.y / c := rfl


/-! ### Normalization facts for `Angle.clamp` -/

theorem two_pi_pos : (0 : ℝ) < 2 * Real.pi := by
  have := Real.pi_pos
  linarith

/-- `clamp` always lands in `[0, 2π)`. -/
theorem clamp_mem_Ico (r : ℝ) : 0 ≤ Angle.clamp r ∧ Angle.clamp r < 2 * Real.pi := by
  have h2π : (0 : ℝ) < 2 * Real.pi := two_pi_pos
  unfold Angle.clamp fmod truncToward
  rcases le_or_lt 0 (r / (2 * Real.pi)) with hq | hq
  · rw [if_pos hq]
    have hfr : r - 2 * Real.pi * (⌊r / (2 * Real.pi)⌋ : ℝ) = 2 * Real.pi * Int.fract (r / (2 * Real.pi)) := by
      rw [Int.fract]
      field_simp
    have h0 : 0 ≤ 2 * Real.pi * Int.fract (r / (2 * Real.pi)) :=
      mul_nonneg h2π.le (Int.fract_nonneg _)
    have h1 : 2 * Real.pi * Int.fract (r / (2 * Real.pi)) < 2 * Real.pi := by
      have := Int.fract_lt_one (r / (2 * Real.pi))
      nlinarith
    rw [hfr, if_neg (not_lt.mpr h0)]
    exact ⟨h0, h1⟩
  · rw [if_neg (not_le.mpr hq)]
    have hle : r / (2 * Real.pi) ≤ (⌈r / (2 * Real.pi)⌉ : ℝ) := Int.le_ceil _
    have hlt : (⌈r / (2 * Real.pi)⌉ : ℝ) < r / (2 * Real.pi) + 1 := Int.ceil_lt_add_one _
    have hm0 : r - 2 * Real.pi * (⌈r / (2 * Real.pi)⌉ : ℝ) ≤ 0 := by
      have hr : r = 2 * Real.pi * (r / (2 * Real.pi)) := by
        field_simp
      nlinarith
    have hm1 : -(2 * Real.pi) < r - 2 * Real.pi * (⌈r / (2 * Real.pi)⌉ : ℝ) := by
      have hr : r = 2 * Real.pi * (r / (2 * Real.pi)) := by
        field_simp
      nlinarith
    rcases lt_or_eq_of_le hm0 with hm | hm
    · rw [if_pos hm]
      constructor <;> linarith
    · rw [hm, if_neg (lt_irrefl 0)]
      exact ⟨le_refl 0, h2π⟩

/-- `clamp` only shifts its argument by an integer multiple of `2π`. -/
theorem clamp_eq_add_int_mul (r : ℝ) : ∃ n : ℤ, Angle.clamp r = r + (n : ℝ) * (2 * Real.pi) := by
  unfold Angle.clamp fmod
  by_cases hm : r - 2 * Real.pi * (truncToward (r / (2 * Real.pi)) : ℝ) < 0
  · refine ⟨1 - truncToward (r / (2 * Real.pi)), ?_⟩
    rw [if_pos hm]
    push_cast
    ring
  · refine ⟨-truncToward (r / (2 * Real.pi)), ?_⟩
    rw [if_neg hm]
    push_cast
    ring

/-- A value already in `[0, 2π)` is a fixed point of `clamp`. -/
theorem clamp_eq_self {r : ℝ} (h0 : 0 ≤ r) (h1 : r < 2 * Real.pi) : Angle.clamp r = r := by
  have h2π : (0 : ℝ) < 2 * Real.pi := two_pi_pos
  have hq0 : 0 ≤ r / (2 * Real.pi) := div_nonneg h0 h2π.le
  have hq1 : r / (2 * Real.pi) < 1 := (div_lt_one h2π).mpr h1
  have hfl : ⌊r / (2 * Real.pi)⌋ = 0 := by
    rw [Int.floor_eq_zero_iff]
    exact ⟨hq0, hq1⟩
  unfold Angle.clamp fmod truncToward
  rw [if_pos hq0, hfl]
  push_cast
  rw [mul_zero, sub_zero, if_neg (not_lt.mpr h0)]

@[simp] theorem clamp_zero : Angle.clamp 0 = 0 :=
  clamp_eq_self (le_refl 0) two_pi_pos

theorem cos_clamp (r : ℝ) : Real.cos (Angle.clamp r) = Real.cos r := by
  rcases clamp_eq_add_int_mul r with ⟨n, hn⟩
  rw [hn, Real.cos_add_int_mul_two_pi]

theorem sin_clamp (r : ℝ) : Real.sin (Angle.clamp r) = Real.sin r := by
  rcases clamp_eq_add_int_mul r with ⟨n, hn⟩
  rw [hn, Real.sin_add_int_mul_two_pi]

/-! ### Component lemmas for `Kinematics` -/

@[simp] theorem Kinematics.add_vec (a b : Kinematics) : (a + b).vec = a.vec + b.vec := rfl
@[simp] theorem Kinematics.add_ang (a b : Kinematics) : (a + b).ang = a.ang + b.ang := rfl
@[simp] theorem Kinematics.sub_vec (a b : Kinematics) : (a - b).vec = a.vec - b.vec := rfl
@[simp] theorem Kinematics.sub_ang (a b : Kinematics) : (a - b).ang = a.ang - b.ang := rfl
@[simp] theorem Kinematics.smul_vec (c : ℝ) (k : Kinematics) : (c • k).vec = c • k.vec := rfl
@[simp] theorem Kinematics.smul_ang (c : ℝ) (k : Kinematics) : (c • k).ang = k.ang * c := rfl
@[simp] theorem Kinematics.div_vec (k : Kinematics) (c : ℝ) : (k / c).vec = k.vec / c := rfl
@[simp] theorem Kinematics.div_ang (k : Kinematics) (c : ℝ) : (k / c).ang = k.ang / c := rfl
@[simp] theorem Kinematics.new_raw_vec (v : Vector) (a : ℝ) : (Kinematics.new_raw v a).vec = v := rfl
@[simp] theorem Kinematics.new_raw_ang (v : Vector) (a : ℝ) : (Kinematics.new_raw v a).ang = a := rfl

/-! ### Claim C4: angle normalization invariant -/

/-- C4: for every real input, `Angle::from_radians` (and `from_degrees`)
stores a radians value in `[0, 2π)`, and the invariant is preserved by
every `Angle` addition and subtraction. -/
theorem c4_angle_normalization :
    ∀ θ : ℝ,
      (0 ≤ (Angle.from_radians θ).radians ∧ (Angle.from_radians θ).radians < 2 * Real.pi) ∧
      (0 ≤ (Angle.from_degrees θ).radians ∧ (Angle.from_degrees θ).radians < 2 * Real.pi) ∧
      ∀ a b : Angle,
        (0 ≤ (a + b).radians ∧ (a + b).radians < 2 * Real.pi) ∧
        (0 ≤ (a - b).radians ∧ (a - b).radians < 2 * Real.pi) :=
  fun θ =>
    ⟨clamp_mem_Ico θ, clamp_mem_Ico _, fun _ _ => ⟨clamp_mem_Ico _, clamp_mem_Ico _⟩⟩

/-- The two-sample demonstration table is strictly increasing. -/
theorem strictIncX_pair01 : StrictIncX [((0 : ℚ), 0), (10, 1)] := by
  norm_num [StrictIncX, List.pairwise_cons]

/-- Evaluation of the lookup on the malformed (duplicate-x) table. -/
theorem interp_bad_table_eval :
    (Linear.new [((0 : ℚ), 0), (0, 5), (10, 1)]).interpolate 3 = some (19 / 5) := by
  have hsearch : binarySearchByX [((0 : ℚ), 0), (0, 5), (10, 1)] 3 = Sum.inr 2 := by
    norm_num [binarySearchByX]
  simp only [Linear.interpolate, Linear.new, hsearch]
  norm_num [List.get?]

/-! ### Claim C2: out-of-range queries -/

/-- C2 (counterexample): on the table `[(0,0),(10,1)]` the claimed
extrapolation values for queries below the first sample (`-1`, claimed
`-0.1`), at the last sample (`10`) and past it (`11`, claimed `1.1`) are
never produced: each lookup fails (panics). -/
theorem c2_counterexample :
    (Linear.new [((0 : ℚ), 0), (10, 1)]).interpolate (-1) = none ∧
    (Linear.new [((0 : ℚ), 0), (10, 1)]).interpolate 10 = none ∧
    (Linear.new [((0 : ℚ), 0), (10, 1)]).interpolate 11 = none := by
  decide

/-- C2 (amended): for every table of at least two strictly increasing
samples, a query below the first sample underflows the `usize` index
`i - 1`, and a query at or after the last sample indexes `data[i + 1]`
past the end; in both cases the lookup panics rather than extrapolating
or returning a value. -/
theorem c2_amended {K : Type} [LinearOrderedField K] {data : List (K × K)}
    (h : StrictIncX data) (hlen : 0 < data.length) (m : Nat)
    (hm : m + 1 = data.length) (x : K)
    (hx : x < (data.get ⟨0, hlen⟩).1 ∨ (data.get ⟨m, by omega⟩).1 ≤ x) :
    (Linear.new data).interpolate x = none := by
  rcases hx with hx | hx
  · exact interpolate_below_first h hlen x hx
  · exact interpolate_at_or_after_last h m hm x hx

/-- Witness for `c2_amended` on the table `[(0,0),(10,1)]` with the
below-range query `-1`. -/
theorem c2_amended_witness :
    StrictIncX [((0 : ℚ), 0), (10, 1)] ∧
    (Linear.new [((0 : ℚ), 0), (10, 1)]).interpolate (-1) = none :=
  ⟨strictIncX_pair01,
    c2_amended strictIncX_pair01 (by decide) 1 (by decide) (-1) (Or.inl (by decide))⟩

/-! ### Claim C5: exact hits and interior blending -/

/-- C5 (counterexample): on the valid table `[(0,0),(10,1)]`, querying the
x-value of the *last* sample does not return that sample's y: the lookup
panics (`data[j]` with `j` one past the end). -/
theorem c5_counterexample :
    (Linear.new [((0 : ℚ), 0), (10, 1)]).interpolate 10 = none ∧
    ¬ (Linear.new [((0 : ℚ), 0), (10, 1)]).interpolate 10 = some 1 := by
  decide

/-- C5 (amended): on every strictly increasing table, a query equal to any
sample's x-value *except the last* returns that sample's y exactly, and a
query strictly between two adjacent samples returns the linear blend; a
query equal to the last sample's x-value fails (panics). -/
theorem c5_amended {K : Type} [LinearOrderedField K] {data : List (K × K)}
    (h : StrictIncX data) :
    (∀ i : Fin data.length, (i : Nat) + 1 < data.length →
      (Linear.new data).interpolate (data.get i).1 = some (data.get i).2) ∧
    (∀ i : Fin data.length, ∀ hi1 : (i : Nat) + 1 < data.length, ∀ x : K,
      (data.get i).1 < x → x < (data.get ⟨(i : Nat) + 1, hi1⟩).1 →
      (Linear.new data).interpolate x =
        some ((data.get i).2 +
          (x - (data.get i).1) /
            ((data.get ⟨(i : Nat) + 1, hi1⟩).1 - (data.get i).1) *
            ((data.get ⟨(i : Nat) + 1, hi1⟩).2 - (data.get i).2))) ∧
    (∀ m : Nat, ∀ hm : m + 1 = data.length,
      (Linear.new data).interpolate (data.get ⟨m, by omega⟩).1 = none) := by
  refine ⟨fun i hi1 => interpolate_exact_interior h i hi1,
    fun i hi1 x hlo hhi => interpolate_blend_interior h i hi1 x hlo hhi,
    fun m hm => interpolate_at_or_after_last h m hm _ (le_refl _)⟩

/-- Witness for `c5_amended`: on the table `[(0,0),(10,1)]` the interior
query `5` returns the blend `0.5`. -/
theorem c5_amended_witness :
    StrictIncX [((0 : ℚ), 0), (10, 1)] ∧
    (Linear.new [((0 : ℚ), 0), (10, 1)]).interpolate 5 = some (1 / 2) := by
  refine ⟨strictIncX_pair01, ?_⟩
  have h := (c5_amended strictIncX_pair01).2.1
    ⟨0, by decide⟩ (by decide) 5 (by decide) (by decide)
  rw [h]
  norm_num [List.get]

/-! ### Claim C8: unchecked construction -/

/-- C8 (counterexample): `Linear::new` accepts a single-sample table and a
table with non-increasing x-values without any failure; the latter even
goes on to produce an ordinary interpolation result (`19/5` at `3`). -/
theorem c8_counterexample :
    (Linear.new [((0 : ℚ), 0)]).data.length = 1 ∧
    (Linear.new [((0 : ℚ), 0), (0, 5), (10, 1)]).interpolate 3 = some (19 / 5) :=
  ⟨rfl, interp_bad_table_eval⟩

/-- C8 (amended): construction performs no validation at all — `new`
stores any sample list unchanged — and misuse surfaces only at
interpolation time, either as a panic (single sample) or as an ordinary
value computed from the malformed table. -/
theorem c8_amended :
    (∀ data : List (ℚ × ℚ), (Linear.new data).data = data) ∧
    (Linear.new [((0 : ℚ), 0)]).interpolate 0 = none ∧
    (Linear.new [((0 : ℚ), 0), (0, 5), (10, 1)]).interpolate 3 = some (19 / 5) :=
  ⟨fun _ => rfl, by decide, interp_bad_table_eval⟩

/-! ### Vector and orientation helper lemmas -/

@[simp] theorem Vector.new_x (a b : ℝ) : (Vector.new a b).x = a := rfl
@[simp] theorem Vector.new_y (a b : ℝ) : (Vector.new a b).y = b := rfl

theorem from_radians_zero (r : ℝ) : Vector.from_radians 0 r = Vector.new 0 0 := by
  apply Vector.ext <;> simp [Vector.from_radians, Vector.new]

theorem Vector.add_new_zero (v : Vector) : v + Vector.new 0 0 = v := by
  apply Vector.ext <;> simp

theorem Vector.new_zero_add (v : Vector) : Vector.new 0 0 + v = v := by
  apply Vector.ext <;> simp

theorem Vector.one_smul_vec (v : Vector) : (1 : ℝ) • v = v := by
  apply Vector.ext <;> simp

theorem Vector.cross_new_zero (v : Vector) : v.cross (Vector.new 0 0) = 0 := by
  simp [Vector.cross]

theorem Kinematics.div_one (k : Kinematics) : k / (1 : ℝ) = k := by
  ext <;> simp

theorem magnitude_new_zero : (Vector.new 0 0).magnitude = 0 := by
  simp [Vector.magnitude]

theorem magnitude_from_radians (m r : ℝ) : (Vector.from_radians m r).magnitude = |m| := by
  unfold Vector.magnitude Vector.from_radians
  rw [show (m * Real.cos r) ^ 2 + (m * Real.sin r) ^ 2 =
    m ^ 2 * (Real.sin r ^ 2 + Real.cos r ^ 2) by ring]
  rw [Real.sin_sq_add_cos_sq, mul_one, Real.sqrt_sq_eq_abs]

theorem orientation_new_zero : (Vector.new 0 0).orientation = (⟨0⟩ : Angle) := by
  have hz : (⟨(Vector.new 0 0).x, (Vector.new 0 0).y⟩ : ℂ) = 0 := by
    apply Complex.ext <;> simp [Vector.new]
  unfold Vector.orientation
  rw [hz, Complex.arg_zero]
  unfold Angle.from_radians
  rw [clamp_zero]

theorem complex_ne_zero_of_vec {v : Vector} (hv : ¬(v.x = 0 ∧ v.y = 0)) :
    (⟨v.x, v.y⟩ : ℂ) ≠ 0 := by
  intro h0
  apply hv
  constructor
  · have := congrArg Complex.re h0
    simpa using this
  · have := congrArg Complex.im h0
    simpa using this

theorem abs_complex_eq_magnitude (v : Vector) :
    Complex.abs ⟨v.x, v.y⟩ = v.magnitude := by
  rw [Complex.abs_apply, Complex.normSq_mk, Vector.magnitude]
  ring_nf

theorem magnitude_pos_of {v : Vector} (hv : ¬(v.x = 0 ∧ v.y = 0)) :
    0 < v.magnitude := by
  unfold Vector.magnitude
  apply Real.sqrt_pos.mpr
  rcases not_and_or.mp hv with h | h
  · have h2 := pow_two_pos_of_ne_zero h
    nlinarith [sq_nonneg v.y]
  · have h2 := pow_two_pos_of_ne_zero h
    nlinarith [sq_nonneg v.x]

theorem cos_clamp_add (θ c : ℝ) :
    Real.cos (Angle.clamp θ + c) = Real.cos (θ + c) := by
  rcases clamp_eq_add_int_mul θ with ⟨n, hn⟩
  rw [hn, show θ + (n : ℝ) * (2 * Real.pi) + c = θ + c + (n : ℝ) * (2 * Real.pi) by ring,
    Real.cos_add_int_mul_two_pi]

theorem sin_clamp_add (θ c : ℝ) :
    Real.sin (Angle.clamp θ + c) = Real.sin (θ + c) := by
  rcases clamp_eq_add_int_mul θ with ⟨n, hn⟩
  rw [hn, show θ + (n : ℝ) * (2 * Real.pi) + c = θ + c + (n : ℝ) * (2 * Real.pi) by ring,
    Real.sin_add_int_mul_two_pi]

/-- `from_radians` at a magnitude `m` and the direction of `v` rotated by
`+π/2` is the `+90°`-rotated unit vector of `v` scaled by `m`. -/
theorem from_radians_dir_add_pi_div_two (m : ℝ) (v : Vector)
    (hxy : ¬(v.x = 0 ∧ v.y = 0)) :
    Vector.from_radians m (v.orientation.rad + Real.pi / 2) =
      (m / v.magnitude) • Vector.new (-v.y) v.x := by
  have hz := complex_ne_zero_of_vec hxy
  have hcos : Real.cos (Complex.arg ⟨v.x, v.y⟩) = v.x / v.magnitude := by
    rw [Complex.cos_arg hz, abs_complex_eq_magnitude]
  have hsin : Real.sin (Complex.arg ⟨v.x, v.y⟩) = v.y / v.magnitude := by
    rw [Complex.sin_arg, abs_complex_eq_magnitude]
  apply Vector.ext
  · show m * Real.cos (Angle.clamp (Complex.arg ⟨v.x, v.y⟩) + Real.pi / 2) =
      (Vector.new (-v.y) v.x).x * (m / v.magnitude)
    rw [cos_clamp_add, Real.cos_add_pi_div_two, hsin, Vector.new_x]
    ring
  · show m * Real.sin (Angle.clamp (Complex.arg ⟨v.x, v.y⟩) + Real.pi / 2) =
      (Vector.new (-v.y) v.x).y * (m / v.magnitude)
    rw [sin_clamp_add, Real.sin_add_pi_div_two, hcos, Vector.new_y]
    ring

/-- `from_radians` at a magnitude `m` and the direction of `v` rotated by
`+π` is `v` scaled by `-(m/|v|)` (antiparallel to `v`). -/
theorem from_radians_dir_add_pi (m : ℝ) (v : Vector)
    (hxy : ¬(v.x = 0 ∧ v.y = 0)) :
    Vector.from_radians m (v.orientation.rad + Real.pi) =
      (-(m / v.magnitude)) • v := by
  have hz := complex_ne_zero_of_vec hxy
  have hcos : Real.cos (Complex.arg ⟨v.x, v.y⟩) = v.x / v.magnitude := by
    rw [Complex.cos_arg hz, abs_complex_eq_magnitude]
  have hsin : Real.sin (Complex.arg ⟨v.x, v.y⟩) = v.y / v.magnitude := by
    rw [Complex.sin_arg, abs_complex_eq_magnitude]
  apply Vector.ext
  · show m * Real.cos (Angle.clamp (Complex.arg ⟨v.x, v.y⟩) + Real.pi) =
      v.x * (-(m / v.magnitude))
    rw [cos_clamp_add, Real.cos_add_pi, hcos]
    ring
  · show m * Real.sin (Angle.clamp (Complex.arg ⟨v.x, v.y⟩) + Real.pi) =
      v.y * (-(m / v.magnitude))
    rw [sin_clamp_add, Real.sin_add_pi, hsin]
    ring

/-! ### Zero-velocity and zero-area force lemmas -/

theorem dyn_pressure_zero_vel (af : Aerofoil) (k dk : Kinematics)
    (hv : dk.vec = Vector.new 0 0) : af.dyn_pressure k dk = 0 := by
  unfold Aerofoil.dyn_pressure
  rw [show dk.magnitude = (Vector.new 0 0).magnitude by rw [Kinematics.magnitude, hv],
    magnitude_new_zero]
  ring

theorem lift_force_zero_vel (af : Aerofoil) (k dk : Kinematics)
    (hv : dk.vec = Vector.new 0 0) : af.lift_force k dk = Vector.new 0 0 := by
  unfold Aerofoil.lift_force
  rw [dyn_pressure_zero_vel af k dk hv]
  simp only [mul_zero, from_radians_zero]

theorem drag_force_zero_vel (af : Aerofoil) (k dk : Kinematics)
    (hv : dk.vec = Vector.new 0 0) : af.drag_force k dk = Vector.new 0 0 := by
  unfold Aerofoil.drag_force
  rw [dyn_pressure_zero_vel af k dk hv]
  simp only [mul_zero, from_radians_zero]

theorem lift_force_zero_area (af : Aerofoil) (k dk : Kinematics)
    (ha : af.area = 0) : af.lift_force k dk = Vector.new 0 0 := by
  unfold Aerofoil.lift_force
  rw [ha]
  simp only [zero_mul, from_radians_zero]

theorem drag_force_zero_area (af : Aerofoil) (k dk : Kinematics)
    (ha : af.area = 0) : af.drag_force k dk = Vector.new 0 0 := by
  unfold Aerofoil.drag_force
  rw [ha]
  simp only [zero_mul, from_radians_zero]

theorem pitching_moment_zero_area (af : Aerofoil) (k dk : Kinematics)
    (ha : af.area = 0) : af.pitching_moment k dk = 0 := by
  unfold Aerofoil.pitching_moment
  rw [ha]
  simp only [zero_mul]

/-! ### Claim C6: lift and drag force geometry -/

/-- C6: with nonzero velocity, the lift force is `area·Cl(aoa°)·q` along
the free-stream direction rotated `+90°` (hence orthogonal to the
velocity), the drag force is `area·Cd(aoa°)·q` antiparallel to the
velocity, and `q = 0.5·ρ(altitude)·|velocity|²`. -/
theorem c6_force_geometry (af : Aerofoil) (k dk : Kinematics)
    (hv : dk.vec ≠ Vector.new 0 0) :
    af.lift_force k dk =
      ((af.area * af.cl ((af.aoa k dk).deg) * af.dyn_pressure k dk) / dk.vec.magnitude) •
        Vector.new (-dk.vec.y) dk.vec.x ∧
    (af.lift_force k dk).dot dk.vec = 0 ∧
    (af.lift_force k dk).magnitude =
      |af.area * af.cl ((af.aoa k dk).deg) * af.dyn_pressure k dk| ∧
    af.drag_force k dk =
      (-((af.area * af.cd ((af.aoa k dk).deg) * af.dyn_pressure k dk) / dk.vec.magnitude)) •
        dk.vec ∧
    (af.drag_force k dk).magnitude =
      |af.area * af.cd ((af.aoa k dk).deg) * af.dyn_pressure k dk| ∧
    af.dyn_pressure k dk = 0.5 * atmo_density k.y * dk.magnitude ^ 2 := by
  have hxy : ¬(dk.vec.x = 0 ∧ dk.vec.y = 0) := by
    intro hc
    exact hv (Vector.ext hc.1 hc.2)
  have hlift : af.lift_force k dk =
      ((af.area * af.cl ((af.aoa k dk).deg) * af.dyn_pressure k dk) / dk.vec.magnitude) •
        Vector.new (-dk.vec.y) dk.vec.x :=
    from_radians_dir_add_pi_div_two _ dk.vec hxy
  have hdrag : af.drag_force k dk =
      (-((af.area * af.cd ((af.aoa k dk).deg) * af.dyn_pressure k dk) / dk.vec.magnitude)) •
        dk.vec :=
    from_radians_dir_add_pi _ dk.vec hxy
  refine ⟨hlift, ?_, magnitude_from_radians _ _, hdrag, magnitude_from_radians _ _, rfl⟩
  rw [hlift]
  simp only [Vector.dot, Vector.smul_x, Vector.smul_y, Vector.new_x, Vector.new_y]
  ring

/-- Witness for `c6_force_geometry` at unit velocity along x. -/
theorem c6_force_geometry_witness :
    dkW.vec ≠ Vector.new 0 0 ∧
    (afW.lift_force kW dkW =
      ((afW.area * afW.cl ((afW.aoa kW dkW).deg) * afW.dyn_pressure kW dkW) / dkW.vec.magnitude) •
        Vector.new (-dkW.vec.y) dkW.vec.x ∧
    (afW.lift_force kW dkW).dot dkW.vec = 0 ∧
    (afW.lift_force kW dkW).magnitude =
      |afW.area * afW.cl ((afW.aoa kW dkW).deg) * afW.dyn_pressure kW dkW| ∧
    afW.drag_force kW dkW =
      (-((afW.area * afW.cd ((afW.aoa kW dkW).deg) * afW.dyn_pressure kW dkW) / dkW.vec.magnitude)) •
        dkW.vec ∧
    (afW.drag_force kW dkW).magnitude =
      |afW.area * afW.cd ((afW.aoa kW dkW).deg) * afW.dyn_pressure kW dkW| ∧
    afW.dyn_pressure kW dkW = 0.5 * atmo_density kW.y * dkW.magnitude ^ 2) := by
  have hv : dkW.vec ≠ Vector.new 0 0 := by
    intro hc
    have := congrArg Vector.x hc
    norm_num [dkW, Kinematics.new_raw, Vector.new] at this
  exact ⟨hv, c6_force_geometry afW kW dkW hv⟩

/-! ### Claim C7: zero-velocity degeneracy -/

/-- C7: at exactly zero velocity the dynamic pressure is zero, both forces
are the zero vector, and the degenerate free-stream direction folds to 0
(`atan2(0,0) = 0`); no singularity arises. -/
theorem c7_zero_velocity (af : Aerofoil) (k dk : Kinematics)
    (hv : dk.vec = Vector.new 0 0) :
    af.dyn_pressure k dk = 0 ∧
    af.lift_force k dk = Vector.new 0 0 ∧
    af.drag_force k dk = Vector.new 0 0 ∧
    dk.direction.rad = 0 := by
  refine ⟨dyn_pressure_zero_vel af k dk hv, lift_force_zero_vel af k dk hv,
    drag_force_zero_vel af k dk hv, ?_⟩
  show dk.vec.orientation.rad = 0
  rw [hv, orientation_new_zero]
  rfl

/-- Witness for `c7_zero_velocity` at the zero-velocity state. -/
theorem c7_zero_velocity_witness :
    dk0.vec = Vector.new 0 0 ∧
    (afW.dyn_pressure kW dk0 = 0 ∧
    afW.lift_force kW dk0 = Vector.new 0 0 ∧
    afW.drag_force kW dk0 = Vector.new 0 0 ∧
    dk0.direction.rad = 0) :=
  ⟨rfl, c7_zero_velocity afW kW dk0 rfl⟩

/-! ### Claim C10: thrust magnitude hard-coded to zero -/

/-- C10: the thrust vector built inside `calculate_dynamics` has its
magnitude hard-coded to `0` (the computed tangential-cancellation
magnitude is discarded), so the returned dynamics are exactly
`(wing force + elevator force + weight, moments) / mass` with no thrust
contribution. -/
theorem c10_thrust_hardcoded_zero (v : Vehicle) (k dk : Kinematics) :
    Vector.from_radians 0 (k.angle.rad + Real.pi) = Vector.new 0 0 ∧
    v.calculate_dynamics k dk =
      Kinematics.new_raw
        (v.wing.lift_force k dk + v.wing.drag_force k dk +
          (v.elev.lift_force k dk + v.elev.drag_force k dk) +
          v.mass • Vector.new 0 (-9.81))
        (v.wing.pitching_moment k dk + v.elev.pitching_moment k dk +
          (Vector.from_radians (v.length / 2) (k.angle.rad + Real.pi)).cross
            (v.elev.lift_force k dk + v.elev.drag_force k dk)) / v.mass := by
  refine ⟨from_radians_zero _, ?_⟩
  simp only [Vehicle.calculate_dynamics, from_radians_zero, Vector.add_new_zero]

/-! ### Claim C9: the control law -/

theorem netAeroForce_sC9 : netAeroForce sC9 = Vector.new 0 0 := by
  have h : sC9.motion.vec = Vector.new 0 0 := rfl
  unfold netAeroForce
  rw [lift_force_zero_vel _ _ _ h, drag_force_zero_vel _ _ _ h,
    lift_force_zero_vel _ _ _ h, drag_force_zero_vel _ _ _ h,
    Vector.add_new_zero, Vector.add_new_zero]

theorem signedTrimError_sC9 : signedTrimError sC9 = 0 := by
  unfold signedTrimError
  rw [netAeroForce_sC9]
  have hneg : Vector.new (-(Vector.new 0 0).x) (-(Vector.new 0 0).y) = Vector.new 0 0 := by
    apply Vector.ext <;> simp
  rw [hneg, orientation_new_zero]
  have hang : sC9.position.angle = (⟨0⟩ : Angle) := by
    show Angle.from_radians 0 = _
    unfold Angle.from_radians
    rw [clamp_zero]
  rw [hang, Angle.sub_def]
  show Angle.nice_deg ⟨Angle.clamp ((0 : ℝ) - 0)⟩ = 0
  rw [sub_zero, clamp_zero]
  unfold Angle.nice_deg
  norm_num

/-- C9 (counterexample): in the state `sC9` (altitude 8000 m, zero
velocity, elevator pitch `π/2`) the signed trim error is zero, yet the
per-step update *sets* the pitch to 0°; so for no gain whatsoever does the
update equal "old pitch plus gain times the signed trim error". -/
theorem c9_counterexample :
    ¬ ∃ gain : ℝ,
      (applyControl sC9).elev.pitch =
        Angle.from_radians (sC9.elev.pitch.rad + gain * signedTrimError sC9) := by
  rintro ⟨g, hg⟩
  rw [signedTrimError_sC9, mul_zero, add_zero] at hg
  have hpitch : sC9.elev.pitch.rad = Real.pi / 2 := rfl
  rw [hpitch] at hg
  have hfr : Angle.from_radians (Real.pi / 2) = ⟨Real.pi / 2⟩ := by
    unfold Angle.from_radians
    rw [clamp_eq_self (by positivity) (by linarith [Real.pi_pos])]
  have hl : (applyControl sC9).elev.pitch = (⟨0⟩ : Angle) := by
    show controlPitch sC9 = _
    unfold controlPitch
    rw [if_neg (by norm_num [Kinematics.y, sC9, Kinematics.new_raw, Vector.new])]
    unfold Angle.from_degrees
    rw [zero_mul, clamp_zero]
  rw [hl, hfr] at hg
  have h0 : (0 : ℝ) = Real.pi / 2 := congrArg Angle.radians hg
  have := Real.pi_pos
  linarith

/-- C9 (amended): each step the elevator pitch is *set* from the current
altitude alone — to `-3°` below 7300 m and to `0°` at or above — ignoring
the current pitch, the orientation and the aerodynamic forces; nothing
else of the vehicle is touched by the control update. -/
theorem c9_amended (v : Vehicle) :
    (v.position.y < 7300 → (applyControl v).elev.pitch = Angle.from_degrees (-3)) ∧
    (7300 ≤ v.position.y → (applyControl v).elev.pitch = Angle.from_degrees 0) ∧
    (applyControl v).position = v.position ∧
    (applyControl v).motion = v.motion ∧
    (applyControl v).wing = v.wing := by
  refine ⟨?_, ?_, rfl, rfl, rfl⟩
  · intro h
    show controlPitch v = _
    unfold controlPitch
    rw [if_pos h]
  · intro h
    show controlPitch v = _
    unfold controlPitch
    rw [if_neg (not_lt.mpr h)]

/-- Witness for `c9_amended`, covering both altitude branches (5000 m and
8000 m). -/
theorem c9_amended_witness :
    (sLow.position.y < 7300 ∧ (applyControl sLow).elev.pitch = Angle.from_degrees (-3)) ∧
    (7300 ≤ sC9.position.y ∧ (applyControl sC9).elev.pitch = Angle.from_degrees 0) :=
  ⟨⟨by norm_num [sLow, Kinematics.y, Kinematics.new_raw, Vector.new],
      (c9_amended sLow).1 (by norm_num [sLow, Kinematics.y, Kinematics.new_raw, Vector.new])⟩,
    ⟨by norm_num [sC9, Kinematics.y, Kinematics.new_raw, Vector.new],
      (c9_amended sC9).2.1 (by norm_num [sC9, Kinematics.y, Kinematics.new_raw, Vector.new])⟩⟩

/-! ### Claim C3: angular acceleration divisor -/

theorem isa_density_zero : isa_density 0 = 1.225 := by
  simp only [isa_density]
  norm_num [Real.one_rpow]

theorem atmo_density_zero : atmo_density 0 = 1 := by
  unfold atmo_density
  rw [isa_density_zero]
  norm_num

theorem magnitude_unit_x : (Vector.new 1 0).magnitude = 1 := by
  unfold Vector.magnitude
  norm_num

theorem dyn_pressure_vC3 : wingC3.dyn_pressure vC3.position vC3.motion = 1 / 2 := by
  unfold Aerofoil.dyn_pressure
  rw [show Kinematics.y vC3.position = (0 : ℝ) from rfl,
    show Kinematics.magnitude vC3.motion = (Vector.new 1 0).magnitude from rfl,
    magnitude_unit_x, atmo_density_zero]
  norm_num

/-- C3 (code bug): in the state `vC3` (net aerodynamic moment 1, mass 1,
stored moment of inertia 1/3) the angular component of
`calculate_dynamics` is `1` — the net moment divided by the *mass* — while
the claim's value, net moment divided by the moment of inertia
`mass·length²/12`, is `3`; the stored `moment` field is never read. -/
theorem c3_angular_divided_by_mass :
    (vC3.calculate_dynamics vC3.position vC3.motion).ang = 1 ∧
    vC3.moment = 1 / 3 ∧
    (1 : ℝ) / vC3.moment = 3 ∧
    (vC3.calculate_dynamics vC3.position vC3.motion).ang ≠ (1 : ℝ) / vC3.moment := by
  have hpm_w : wingC3.pitching_moment vC3.position vC3.motion = 1 := by
    simp only [Aerofoil.pitching_moment]
    rw [show wingC3.dyn_pressure vC3.position vC3.motion = 1 / 2 from dyn_pressure_vC3]
    norm_num [wingC3]
  have hpm_e : elevC3.pitching_moment vC3.position vC3.motion = 0 :=
    pitching_moment_zero_area _ _ _ rfl
  have hFe : vC3.elev.lift_force vC3.position vC3.motion +
      vC3.elev.drag_force vC3.position vC3.motion = Vector.new 0 0 := by
    rw [lift_force_zero_area _ _ _ rfl, drag_force_zero_area _ _ _ rfl,
      Vector.add_new_zero]
  have hang : (vC3.calculate_dynamics vC3.position vC3.motion).ang = 1 := by
    simp only [Vehicle.calculate_dynamics, Kinematics.div_ang, Kinematics.new_raw_ang]
    rw [show vC3.wing = wingC3 from rfl, show vC3.elev = elevC3 from rfl] at *
    rw [hpm_w, hpm_e, hFe, Vector.cross_new_zero]
    rw [show vC3.mass = (1 : ℝ) from rfl]
    norm_num
  have hmom : vC3.moment = 1 / 3 := by
    rw [show vC3.moment = (1 : ℝ) * 2 ^ 2 / 12 from rfl]
    norm_num
  refine ⟨hang, hmom, ?_, ?_⟩
  · rw [hmom]
    norm_num
  · rw [hang, hmom]
    norm_num

/-! ### Claim C1: the ballistic drop -/

/-- With zero-area aerofoils and unit mass, the dynamics are the constant
gravitational acceleration `(0, -9.81)` with zero angular acceleration. -/
theorem calc_dyn_ballistic (v : Vehicle) (hw : v.wing.area = 0) (he : v.elev.area = 0)
    (hm : v.mass = 1) (k dk : Kinematics) :
    v.calculate_dynamics k dk = Kinematics.new_raw (Vector.new 0 (-9.81)) 0 := by
  simp only [Vehicle.calculate_dynamics, lift_force_zero_area v.wing k dk hw,
    drag_force_zero_area v.wing k dk hw, lift_force_zero_area v.elev k dk he,
    drag_force_zero_area v.elev k dk he, pitching_moment_zero_area v.wing k dk hw,
    pitching_moment_zero_area v.elev k dk he, from_radians_zero, hm,
    Vector.add_new_zero, Vector.new_zero_add, Vector.cross_new_zero,
    Vector.one_smul_vec]
  rw [Kinematics.div_one]
  norm_num

/-- RK4 applied to the source's derivative shape `f(t, _) = t • c` with a
state-independent `c` and `t₀ = 0` advances the state by `(h²/2) • c`
(instead of the `h • c` a derivative `c` would give). -/
theorem rk4_t_smul_const (c x : Kinematics) (h : ℝ) :
    rk4 (fun t _ => t • c) x 0 h = x + (h ^ 2 / 2) • c := by
  simp only [rk4]
  ext <;> simp <;> ring

/-- One call of `apply_dynamics` with a single inner step on the ballistic
family: the velocity gains only `(1/2)·(-9.81)` and the altitude only half
the updated velocity. -/
theorem apply_dynamics_vB (py vy : ℝ) :
    Vehicle.apply_dynamics (vB py vy) 1 =
      vB (py + (vy - 4.905) / 2) (vy - 4.905) := by
  show (fun w => Vehicle.applyStep w (1 / ((1 : ℕ) : ℝ)))^[1] (vB py vy) = _
  rw [Function.iterate_one]
  rw [show (1 : ℝ) / ((1 : ℕ) : ℝ) = 1 by norm_num]
  have hf : (fun (t : ℝ) (dk : Kinematics) =>
        t • (vB py vy).calculate_dynamics (vB py vy).position dk) =
      (fun (t : ℝ) (_ : Kinematics) =>
        t • Kinematics.new_raw (Vector.new 0 (-9.81)) 0) := by
    funext t dk
    rw [calc_dyn_ballistic (vB py vy) rfl rfl rfl]
  simp only [Vehicle.applyStep, hf, rk4_t_smul_const]
  ext <;> simp [vB, Vehicle.new, Kinematics.new_raw, Vector.new] <;> ring

/-- C1 (code bug): the pure ballistic drop from 100 m never comes close to
the ground by the claimed ≈4.515 s.  With one inner step per call, after
five 1-second calls of `apply_dynamics` the altitude is still 63.2125 m
(the stray `t *` factor in both derivative closures advances each state by
`h²/2 · derivative` instead of `h · derivative`). -/
theorem c1_ballistic_stall :
    ((fun w => Vehicle.apply_dynamics w 1)^[5] vBall).position.y = 63.2125 ∧
    (0 : ℝ) < 63.2125 := by
  constructor
  · have s1 : Vehicle.apply_dynamics vBall 1 = vB 97.5475 (-4.905) := by
      rw [show vBall = vB 100 0 from rfl, apply_dynamics_vB]
      norm_num
    have s2 : Vehicle.apply_dynamics (vB 97.5475 (-4.905)) 1 = vB 92.6425 (-9.81) := by
      rw [apply_dynamics_vB]
      norm_num
    have s3 : Vehicle.apply_dynamics (vB 92.6425 (-9.81)) 1 = vB 85.285 (-14.715) := by
      rw [apply_dynamics_vB]
      norm_num
    have s4 : Vehicle.apply_dynamics (vB 85.285 (-14.715)) 1 = vB 75.475 (-19.62) := by
      rw [apply_dynamics_vB]
      norm_num
    have s5 : Vehicle.apply_dynamics (vB 75.475 (-19.62)) 1 = vB 63.2125 (-24.525) := by
      rw [apply_dynamics_vB]
      norm_num
    simp only [Function.iterate_succ_apply, Function.iterate_zero_apply]
    rw [s1, s2, s3, s4, s5]
    rfl
  · norm_num
